import Mathlib

/-!
Shallow embedding of src/luigi_pip.py.

The pipeline consists of four luigi Tasks: DownloadDataset,
ExtractAndProcessFiles, TrimProbesTable and DeleteOriginalData.
We model the filesystem as a flat record of directory paths and
file paths with contents, the section parser of
ExtractAndProcessFiles.process_file as a state machine over the
lines of a file, the pandas column drop of TrimProbesTable as a
filter over a header-carrying table, and the run methods of
TrimProbesTable and DeleteOriginalData as functions over the
filesystem state.  Machine strings are Lean String; fallible
operations return Option or pair the state with an optional error.
-/

namespace LuigiPip

/-! Filesystem model.  A path is a list of components. -/

abbrev Path := List String

structure FS where
  dirs : List Path
  files : List (Path × String)
deriving DecidableEq

def FS.isFile (fs : FS) (p : Path) : Bool :=
  decide (p ∈ fs.files.map Prod.fst)

def FS.isDir (fs : FS) (p : Path) : Bool :=
  decide (p ∈ fs.dirs)

/-- p is strictly below root in the directory tree. -/
def isStrictDescendant (root p : Path) : Bool :=
  decide (root.length < p.length) && decide (p.take root.length = root)

/-- Model of os.walk collecting all directories strictly below root.
    A walk of a nonexistent directory yields nothing. -/
def walkDirs (fs : FS) (root : Path) : List Path :=
  if fs.isDir root then fs.dirs.filter (isStrictDescendant root) else []

/-- Model of os.walk collecting all file paths strictly below root. -/
def walkFiles (fs : FS) (root : Path) : List Path :=
  if fs.isDir root then (fs.files.map Prod.fst).filter (isStrictDescendant root) else []

/-- Nonempty ancestor paths of p, shortest first, p itself last. -/
def ancestorsOf (p : Path) : List Path :=
  (List.range p.length).map (fun i => p.take (i + 1))

/-- Model of os.makedirs with exist_ok set: adds every missing ancestor
    directory of p, changing no files. -/
def mkdirs (p : Path) (fs : FS) : FS :=
  { fs with dirs := fs.dirs ++ (ancestorsOf p).filter (fun q => !(decide (q ∈ fs.dirs))) }

/-- Model of os.remove: drops the file at p. -/
def removeFile (fs : FS) (p : Path) : FS :=
  { fs with files := fs.files.filter (fun pf => !(decide (pf.1 = p))) }

/-- One iteration of the deletion loop in DeleteOriginalData.run:
    if os.path.isfile(file) then try os.remove(file) except log.
    The locked predicate marks files whose deletion raises; the
    exception is caught, so the state is simply left unchanged. -/
def tryRemove (locked : Path → Bool) (fs : FS) (p : Path) : FS :=
  if fs.isFile p then (if locked p then fs else removeFile fs p) else fs

/-- The directory at p has no entries below it. -/
def dirEmpty (fs : FS) (p : Path) : Bool :=
  (fs.dirs.filter (isStrictDescendant p)).isEmpty &&
    ((fs.files.map Prod.fst).filter (isStrictDescendant p)).isEmpty

/-- Model of try os.rmdir(p) except OSError: succeeds only on an
    existing empty directory, otherwise the failure is swallowed. -/
def tryRmdir (fs : FS) (p : Path) : FS :=
  if fs.isDir p && dirEmpty fs p then
    { fs with dirs := fs.dirs.filter (fun d => !(decide (d = p))) }
  else fs

/-- Deepest-first ordering of a list of directories, modelling the
    bottom-up walk os.walk(dir, topdown=False). -/
def bottomUpDirs (ds : List Path) : List Path :=
  ((List.range (ds.foldl (fun m d => max m d.length) 0 + 1)).reverse).foldl
    (fun acc n => acc ++ ds.filter (fun d => decide (d.length = n))) []

/-- Default processed_data_dir parameter. -/
def procDataDir : Path := ["processed_data"]

/-- The output Target path declared by DeleteOriginalData. -/
def doneTargetPath : Path := ["processed_data", "delete_original_data.done"]

/-- Model of DeleteOriginalData.run: collect every directory and file
    below processed_data_dir; if nothing was found, warn and return
    early; otherwise delete each collected regular file (per-file
    failures swallowed), then remove now-empty directories bottom-up
    (failures swallowed), and finally try to remove the root itself
    (failure swallowed).  Note that the run never writes the file at
    doneTargetPath. -/
def deleteRun (locked : Path → Bool) (fs : FS) : FS :=
  let items := walkDirs fs procDataDir ++ walkFiles fs procDataDir
  if items.isEmpty then fs
  else
    let fs1 := items.foldl (tryRemove locked) fs
    let fs2 := (bottomUpDirs (walkDirs fs1 procDataDir)).foldl tryRmdir fs1
    tryRmdir fs2 procDataDir

/-! Section parser of ExtractAndProcessFiles.process_file.

A file is modelled as the list of its lines with the trailing
newline stripped.  In the python source the lines of the buffer keep
their trailing newline and pandas later splits the buffer on
newlines; the two views coincide because readlines only breaks after
a newline character. -/

/-- Characters stripped by line.strip of the bracket characters and
    the newline when extracting a section name. -/
def stripSet : List Char := ['[', ']', '\n']

/-- Python str.strip with an explicit character set. -/
def pyStrip (s : String) : String :=
  String.mk (((s.data.dropWhile (fun c => stripSet.contains c)).reverse.dropWhile
    (fun c => stripSet.contains c)).reverse)

/-- Model of line.startswith of a single opening bracket. -/
def startsWithBracket (l : String) : Bool :=
  l.data.head? == some '['

/-- Split one line into tab-separated fields, as the pandas reader
    with sep set to tab does. -/
def splitFieldsAux : List Char → List Char → List String
  | [], acc => [String.mk acc.reverse]
  | c :: cs, acc =>
    if c = '\t' then String.mk acc.reverse :: splitFieldsAux cs []
    else splitFieldsAux cs (c :: acc)

def splitFields (l : String) : List String :=
  splitFieldsAux l.data []

/-- One parsed section: an optional header row of column names and
    the data rows, all fields as strings. -/
structure Table where
  header : Option (List String)
  rows : List (List String)
deriving DecidableEq

/-- Model of pandas read_csv on the buffered lines with sep set to
    tab: blank lines are skipped (the skip_blank_lines default); an
    empty buffer raises EmptyDataError, modelled as none; with
    inferHeader the first line becomes the column-name row. -/
def readTable (inferHeader : Bool) (buf : List String) : Option Table :=
  match buf.filter (fun l => l != "") with
  | [] => none
  | h :: t =>
    if inferHeader then some (Table.mk (some (splitFields h)) (t.map splitFields))
    else some (Table.mk none ((h :: t).map splitFields))

/-- Python dict assignment on an insertion-ordered association list:
    an existing key keeps its position and gets the new value, a new
    key is appended at the end. -/
def insertSection : List (String × Table) → String → Table → List (String × Table)
  | [], k, v => [(k, v)]
  | (k1, v1) :: rest, k, v =>
    if k1 = k then (k1, v) :: rest else (k1, v1) :: insertSection rest k v

/-- The line loop of process_file.  State: remaining lines, current
    section name (write_key), buffered lines (fio) and the finished
    sections (dfs).  Every finalization and buffering step is guarded
    by the python truthiness test of write_key, so both None and an
    empty stripped name count as inactive.  At a bracket line an
    active section is finalized with the headerless special case for
    the name Heading; at end of file an active section is finalized
    with an inferred header unconditionally, exactly as in the
    source.  A pandas EmptyDataError on an empty buffer aborts the
    whole parse. -/
def parseLoop : List String → Option String → List String → List (String × Table) →
    Option (List (String × Table))
  | [], wk, buf, dfs =>
    match wk with
    | none => some dfs
    | some k =>
      if k != "" then (readTable true buf).map (fun t => insertSection dfs k t)
      else some dfs
  | line :: rest, wk, buf, dfs =>
    if startsWithBracket line then
      match wk with
      | some k =>
        if k != "" then
          match readTable (k != "Heading") buf with
          | none => none
          | some t => parseLoop rest (some (pyStrip line)) [] (insertSection dfs k t)
        else parseLoop rest (some (pyStrip line)) [] dfs
      | none => parseLoop rest (some (pyStrip line)) [] dfs
    else
      match wk with
      | some k =>
        if k != "" then parseLoop rest (some k) (buf ++ [line]) dfs
        else parseLoop rest (some k) buf dfs
      | none => parseLoop rest none buf dfs

/-- The parse phase of process_file on the lines of one file. -/
def processFileParse (lines : List String) : Option (List (String × Table)) :=
  parseLoop lines none [] []

/-! Column trimming of TrimProbesTable. -/

/-- The fixed column set removed by TrimProbesTable.run. -/
def columnsToRemove : List String :=
  ["Definition", "Ontology_Component", "Ontology_Process", "Ontology_Function",
   "Synonyms", "Obsolete_Probe_Id", "Probe_Sequence"]

/-- Model of DataFrame.drop of the named columns with errors set to
    ignore: every column whose header label is in names is removed
    from the header and from each row at the matching position;
    absent names are ignored.  On a headerless table the string
    labels match nothing, so nothing is dropped. -/
def trimColumns (t : Table) (names : List String) : Table :=
  match t.header with
  | none => t
  | some h =>
    Table.mk (some (h.filter (fun c => !(decide (c ∈ names)))))
      (t.rows.map (fun r =>
        ((h.zip r).filter (fun p => !(decide (p.1 ∈ names)))).map Prod.snd))

/-! TrimProbesTable.run over the filesystem model. -/

inductive PipeErr where
  | fileNotFound : String → PipeErr
  | emptyData : PipeErr
deriving DecidableEq

/-- Default output_dir parameter of TrimProbesTable. -/
def outputDirTrim : Path := ["probes_data"]

/-- The sentinel output Target of TrimProbesTable. -/
def sentinelPath : Path := ["probes_data", "Probes_files.tsv"]

/-- The string s ends with the string suf. -/
def strEndsWith (s suf : String) : Bool :=
  s.data.reverse.take suf.data.length == suf.data.reverse

/-- The basename of the path ends in the probes suffix. -/
def endsWithProbes (p : Path) : Bool :=
  match p.getLast? with
  | some name => strEndsWith name "_Probes.tsv"
  | none => false

def readFileFS (fs : FS) (p : Path) : Option String :=
  (fs.files.find? (fun pf => decide (pf.1 = p))).map Prod.snd

def writeFileFS (fs : FS) (p : Path) (content : String) : FS :=
  { fs with files := fs.files.filter (fun pf => !(decide (pf.1 = p))) ++ [(p, content)] }

/-- Serialization of DataFrame.to_csv with sep tab and no index:
    the header row if present, then the data rows, each line
    newline-terminated. -/
def serializeTable (t : Table) : String :=
  String.join (((match t.header with | some h => [h] | none => []) ++ t.rows).map
    (fun r => String.intercalate "\t" r ++ "\n"))

/-- Processing of one located probes file: read it, parse it with an
    inferred header, drop the fixed columns, and write the trimmed
    table next to the sentinel under the renamed basename. -/
def trimOneFile (fs : FS) (p : Path) : Option FS :=
  match readFileFS fs p with
  | none => none
  | some content =>
    match readTable true (content.splitOn "\n") with
    | none => none
    | some t =>
      let base := (p.getLast?).getD ""
      let outName := base.replace "_Probes.tsv" "_trimmed_Probes.tsv"
      some (writeFileFS fs (outputDirTrim ++ [outName]) (serializeTable (trimColumns t columnsToRemove)))

/-- The per-file loop of TrimProbesTable.run followed by the write of
    the sentinel file. -/
def trimLoop : List Path → FS → FS × Option PipeErr
  | [], fs => (writeFileFS fs sentinelPath "Trimmed Probes processing completed.\n", none)
  | p :: rest, fs =>
    match trimOneFile fs p with
    | none => (fs, some PipeErr.emptyData)
    | some fs2 => trimLoop rest fs2

/-- Model of TrimProbesTable.run: create output_dir first, then walk
    processed_data_dir for files ending in the probes suffix; if none
    were found raise FileNotFoundError, otherwise trim every found
    file and finally write the sentinel. -/
def trimProbesRun (fs : FS) : FS × Option PipeErr :=
  if ((walkFiles (mkdirs outputDirTrim fs) procDataDir).filter endsWithProbes).isEmpty then
    (mkdirs outputDirTrim fs,
      some (PipeErr.fileNotFound "No Probes files found in the directory: processed_data"))
  else
    trimLoop ((walkFiles (mkdirs outputDirTrim fs) procDataDir).filter endsWithProbes)
      (mkdirs outputDirTrim fs)

/-! Helper lemmas about the filesystem model. -/

theorem mkdirs_files (p : Path) (fs : FS) : (mkdirs p fs).files = fs.files := rfl

theorem mem_mkdirs_self (p : Path) (fs : FS) (hp : p ≠ []) : p ∈ (mkdirs p fs).dirs := by
  unfold mkdirs
  by_cases h : p ∈ fs.dirs
  · exact List.mem_append.2 (Or.inl h)
  · refine List.mem_append.2 (Or.inr (List.mem_filter.2 ⟨?_, by simp [h]⟩))
    refine List.mem_map.2 ⟨p.length - 1, ?_, ?_⟩
    · exact List.mem_range.2 (Nat.sub_lt (List.length_pos.2 hp) Nat.one_pos)
    · rw [Nat.sub_add_cancel (List.length_pos.2 hp)]
      exact List.take_length _

theorem tryRmdir_files (fs : FS) (p : Path) : (tryRmdir fs p).files = fs.files := by
  unfold tryRmdir
  split <;> rfl

theorem foldl_tryRmdir_files (L : List Path) (fs : FS) :
    (L.foldl tryRmdir fs).files = fs.files := by
  induction L generalizing fs with
  | nil => rfl
  | cons p L ih => rw [List.foldl_cons, ih, tryRmdir_files]

theorem mem_removeFile (fs : FS) (p : Path) (pf : Path × String) :
    pf ∈ (removeFile fs p).files ↔ pf ∈ fs.files ∧ pf.1 ≠ p := by
  simp [removeFile, List.mem_filter]

theorem not_isFile_ne (fs : FS) (p : Path) (h : fs.isFile p = false) :
    ∀ pf ∈ fs.files, pf.1 ≠ p := by
  intro pf hpf heq
  rw [FS.isFile, decide_eq_false_iff_not] at h
  exact h (List.mem_map.2 ⟨pf, hpf, heq⟩)

theorem mem_tryRemove (locked : Path → Bool) (fs : FS) (p : Path) (pf : Path × String) :
    pf ∈ (tryRemove locked fs p).files ↔
      pf ∈ fs.files ∧ ¬(pf.1 = p ∧ locked pf.1 = false) := by
  unfold tryRemove
  cases hf : fs.isFile p with
  | false =>
    rw [if_neg Bool.false_ne_true]
    constructor
    · intro h
      exact ⟨h, fun hc => not_isFile_ne fs p hf pf h hc.1⟩
    · exact fun h => h.1
  | true =>
    rw [if_pos rfl]
    cases hl : locked p with
    | true =>
      rw [if_pos rfl]
      constructor
      · intro h
        refine ⟨h, ?_⟩
        rintro ⟨heq, hlk⟩
        rw [heq, hl] at hlk
        exact Bool.noConfusion hlk
      · exact fun h => h.1
    | false =>
      rw [if_neg Bool.false_ne_true, mem_removeFile]
      constructor
      · rintro ⟨h1, hne⟩
        exact ⟨h1, fun hc => hne hc.1⟩
      · rintro ⟨h1, h2⟩
        refine ⟨h1, fun heq => h2 ⟨heq, ?_⟩⟩
        rw [heq, hl]

theorem mem_foldl_tryRemove (locked : Path → Bool) (L : List Path) (fs : FS)
    (pf : Path × String) :
    pf ∈ (L.foldl (tryRemove locked) fs).files ↔
      pf ∈ fs.files ∧ ¬(pf.1 ∈ L ∧ locked pf.1 = false) := by
  induction L generalizing fs with
  | nil => simp
  | cons p L ih =>
    rw [List.foldl_cons, ih, mem_tryRemove, List.mem_cons]
    constructor
    · rintro ⟨⟨h1, h2⟩, h3⟩
      refine ⟨h1, ?_⟩
      rintro ⟨heq | hmem, hlk⟩
      · exact h2 ⟨heq, hlk⟩
      · exact h3 ⟨hmem, hlk⟩
    · rintro ⟨h1, h2⟩
      exact ⟨⟨h1, fun hc => h2 ⟨Or.inl hc.1, hc.2⟩⟩, fun hc => h2 ⟨Or.inr hc.1, hc.2⟩⟩

theorem mem_items_iff_walkFiles (fs : FS) (pf : Path × String) (hmem : pf ∈ fs.files) :
    pf.1 ∈ walkDirs fs procDataDir ++ walkFiles fs procDataDir ↔
      pf.1 ∈ walkFiles fs procDataDir := by
  constructor
  · intro h
    rcases List.mem_append.1 h with h1 | h2
    · unfold walkDirs at h1
      cases hd : fs.isDir procDataDir with
      | false =>
        rw [hd, if_neg Bool.false_ne_true] at h1
        exact absurd h1 (List.not_mem_nil _)
      | true =>
        rw [hd, if_pos rfl] at h1
        have hdesc := (List.mem_filter.1 h1).2
        unfold walkFiles
        rw [hd, if_pos rfl]
        exact List.mem_filter.2 ⟨List.mem_map_of_mem Prod.fst hmem, hdesc⟩
    · exact h2
  · exact fun h => List.mem_append.2 (Or.inr h)

/-- Characterization of the files surviving DeleteOriginalData.run:
    exactly the files outside the walk of processed_data_dir together
    with the walked files whose deletion failed. -/
theorem deleteRun_files_mem (locked : Path → Bool) (fs : FS) (pf : Path × String) :
    pf ∈ (deleteRun locked fs).files ↔
      pf ∈ fs.files ∧ ¬(pf.1 ∈ walkFiles fs procDataDir ∧ locked pf.1 = false) := by
  simp only [deleteRun]
  cases he : (walkDirs fs procDataDir ++ walkFiles fs procDataDir).isEmpty with
  | true =>
    rw [if_pos rfl]
    have hnil := List.isEmpty_iff.1 he
    have hwf : walkFiles fs procDataDir = [] := (List.append_eq_nil.1 hnil).2
    rw [hwf]
    simp
  | false =>
    rw [if_neg Bool.false_ne_true]
    rw [tryRmdir_files, foldl_tryRmdir_files, mem_foldl_tryRemove]
    constructor
    · rintro ⟨h1, h2⟩
      exact ⟨h1, fun hc =>
        h2 ⟨(mem_items_iff_walkFiles fs pf h1).2 hc.1, hc.2⟩⟩
    · rintro ⟨h1, h2⟩
      exact ⟨h1, fun hc =>
        h2 ⟨(mem_items_iff_walkFiles fs pf h1).1 hc.1, hc.2⟩⟩

/-! Helper lemmas about the section parser. -/

theorem parseLoop_skip_junk (pre : List String) (rest : List String) (buf : List String)
    (dfs : List (String × Table)) (hpre : ∀ l ∈ pre, startsWithBracket l = false) :
    parseLoop (pre ++ rest) none buf dfs = parseLoop rest none buf dfs := by
  induction pre with
  | nil => rfl
  | cons l pre ih =>
    have hl : startsWithBracket l = false := hpre l (List.mem_cons_self l pre)
    rw [List.cons_append]
    show (if startsWithBracket l then _ else _) = _
    rw [hl, if_neg Bool.false_ne_true]
    exact ih (fun x hx => hpre x (List.mem_cons_of_mem l hx))

theorem parseLoop_accum (d : List String) (k : String) (buf : List String)
    (dfs : List (String × Table)) (hk : k ≠ "")
    (hd : ∀ l ∈ d, startsWithBracket l = false) :
    parseLoop d (some k) buf dfs = parseLoop [] (some k) (buf ++ d) dfs := by
  have hkb : (k != "") = true := bne_iff_ne.mpr hk
  induction d generalizing buf with
  | nil => rw [List.append_nil]
  | cons l d ih =>
    have hl : startsWithBracket l = false := hd l (List.mem_cons_self l d)
    show (if startsWithBracket l then _ else _) = _
    rw [hl, if_neg Bool.false_ne_true]
    show (if (k != "") = true then parseLoop d (some k) (buf ++ [l]) dfs
      else parseLoop d (some k) buf dfs) = _
    rw [hkb, if_pos rfl]
    rw [ih (buf ++ [l]) (fun x hx => hd x (List.mem_cons_of_mem l hx))]
    rw [List.append_assoc]
    rfl

theorem data_bracket_wrap (n : String) : ("[" ++ n ++ "]").data = '[' :: (n.data ++ [']']) := by
  cases n with
  | mk d => rfl

theorem startsWithBracket_wrap (n : String) : startsWithBracket ("[" ++ n ++ "]") = true := by
  rw [startsWithBracket, data_bracket_wrap]
  rfl

/-! Claim theorems. -/

/-- Claim C3: on the input text whose sections are Heading with the
    single line X and Probes with a tab-separated header line ID,
    Definition and the rows 1 foo and 2 bar, the parse phase of
    process_file yields exactly two tables in that order: Heading
    headerless with the single row X, and Probes with header ID,
    Definition and rows 1 foo and 2 bar. -/
theorem c3_section_round_trip :
    processFileParse ["[Heading]", "X", "[Probes]", "ID\tDefinition", "1\tfoo", "2\tbar"] =
      some [("Heading", Table.mk none [["X"]]),
            ("Probes", Table.mk (some ["ID", "Definition"]) [["1", "foo"], ["2", "bar"]])] := by
  decide

/-- Claim C7: lines appearing before the first section header line
    are discarded silently by the section parser; the parse result of
    any file is unchanged when such lines are prepended. -/
theorem c7_junk_before_first_section_discarded (pre rest : List String)
    (hpre : ∀ l ∈ pre, startsWithBracket l = false) :
    processFileParse (pre ++ rest) = processFileParse rest :=
  parseLoop_skip_junk pre rest [] [] hpre

theorem c7_junk_before_first_section_discarded_witness :
    processFileParse (["junk line", "more junk"] ++ ["[A]", "x"]) =
      processFileParse ["[A]", "x"] :=
  c7_junk_before_first_section_discarded ["junk line", "more junk"] ["[A]", "x"] (by decide)

/-- Claim C2 counterexample: a file whose last section is literally
    named Heading is not finalized as a headerless table at end of
    file; the source finalizes it with an inferred header (the single
    line X becomes the column-name row), so the end-of-file
    finalization is not exactly the section-switch finalization. -/
theorem c2_last_heading_counterexample :
    processFileParse ["[Heading]", "X"] = some [("Heading", Table.mk (some ["X"]) [])] ∧
      processFileParse ["[Heading]", "X"] ≠ some [("Heading", Table.mk none [["X"]])] := by
  decide

/-- Claim C2 amended: at end of file an active section buffer (one
    whose stripped name is nonempty, since an empty name is falsy at
    every write_key truthiness check and so never active) is always
    finalized with an inferred header, its first accumulated nonblank
    line becoming the column-name row, regardless of the section
    name; the headerless special case for the name Heading applies
    only when finalization is triggered by a following section header
    line. -/
theorem c2_amended_eof_always_infers_header (n : String) (d : List String)
    (h : String) (hs : List String)
    (hn : pyStrip ("[" ++ n ++ "]") ≠ "")
    (hd : ∀ l ∈ d, startsWithBracket l = false)
    (hf : d.filter (fun l => l != "") = h :: hs) :
    processFileParse (("[" ++ n ++ "]") :: d) =
      some [(pyStrip ("[" ++ n ++ "]"), Table.mk (some (splitFields h)) (hs.map splitFields))] := by
  have hnb : (pyStrip ("[" ++ n ++ "]") != "") = true := bne_iff_ne.mpr hn
  unfold processFileParse
  show (if startsWithBracket ("[" ++ n ++ "]") then _ else _) = _
  rw [startsWithBracket_wrap, if_pos rfl]
  show parseLoop d (some (pyStrip ("[" ++ n ++ "]"))) [] [] = _
  rw [parseLoop_accum d _ [] [] hn hd]
  show (if (pyStrip ("[" ++ n ++ "]") != "") = true
    then (readTable true ([] ++ d)).map _ else some []) = _
  rw [hnb, if_pos rfl, List.nil_append, readTable, hf]
  rfl

theorem c2_amended_eof_always_infers_header_witness :
    processFileParse (("[" ++ "Heading" ++ "]") :: ["X"]) =
      some [(pyStrip ("[" ++ "Heading" ++ "]"),
        Table.mk (some (splitFields "X")) (List.map splitFields []))] :=
  c2_amended_eof_always_infers_header "Heading" ["X"] "X" []
    (by decide) (by decide) (by decide)

/-- Claim C9: assigning a table under an already-present section name
    keeps that name at its first-seen position in the mapping and
    replaces its table by the newly finalized one; on a file where
    section A appears twice the result has a single A entry, in first
    position, holding the table of the second A section. -/
theorem c9_duplicate_section_replaces_in_place :
    (∀ (m : List (String × Table)) (k : String) (v : Table),
      k ∈ m.map Prod.fst →
        (insertSection m k v).map Prod.fst = m.map Prod.fst ∧
          (insertSection m k v).lookup k = some v) ∧
    processFileParse ["[A]", "x", "[B]", "y\tz", "[A]", "p\tq", "r\ts"] =
      some [("A", Table.mk (some ["p", "q"]) [["r", "s"]]),
            ("B", Table.mk (some ["y", "z"]) [])] := by
  constructor
  · intro m k v hk
    induction m with
    | nil => simp at hk
    | cons e m ih =>
      obtain ⟨k1, v1⟩ := e
      by_cases hkk : k1 = k
      · subst hkk
        have hrw : insertSection ((k1, v1) :: m) k1 v = (k1, v) :: m := by
          simp [insertSection]
        rw [hrw]
        exact ⟨by simp, by simp [List.lookup]⟩
      · have hk2 : k ∈ m.map Prod.fst := by
          rw [List.map_cons] at hk
          rcases List.mem_cons.1 hk with h | h
          · exact absurd h.symm hkk
          · exact h
        obtain ⟨ih1, ih2⟩ := ih hk2
        have hrw : insertSection ((k1, v1) :: m) k v = (k1, v1) :: insertSection m k v := by
          simp [insertSection, hkk]
        rw [hrw]
        constructor
        · rw [List.map_cons, List.map_cons, ih1]
        · have hne : (k == k1) = false := beq_eq_false_iff_ne.mpr (Ne.symm hkk)
          simp [List.lookup, ih2, hne]
  · decide

theorem c9_duplicate_section_replaces_in_place_witness :
    (insertSection [("A", Table.mk none [])] "A" (Table.mk none [["z"]])).map Prod.fst =
        ["A"] ∧
      (insertSection [("A", Table.mk none [])] "A" (Table.mk none [["z"]])).lookup "A" =
        some (Table.mk none [["z"]]) := by
  have h := c9_duplicate_section_replaces_in_place.1
    [("A", Table.mk none [])] "A" (Table.mk none [["z"]]) (by decide)
  exact ⟨h.1, h.2⟩

/-- Claim C5: the trim operation removes each named column from the
    header and from every row at the matching position, silently
    ignores names absent from the header, and preserves the row count
    and order; trimming Definition from the Probes table yields
    header ID with rows 1 and 2, trimming an absent name is the
    identity, the row count is always preserved, and trimming a set
    of names disjoint from the header leaves any well-formed table
    unchanged. -/
theorem c5_trim_columns :
    trimColumns (Table.mk (some ["ID", "Definition"]) [["1", "foo"], ["2", "bar"]])
        ["Definition"] = Table.mk (some ["ID"]) [["1"], ["2"]] ∧
    trimColumns (Table.mk (some ["ID", "Definition"]) [["1", "foo"], ["2", "bar"]])
        ["Nonexistent"] =
      Table.mk (some ["ID", "Definition"]) [["1", "foo"], ["2", "bar"]] ∧
    (∀ (t : Table) (names : List String),
      (trimColumns t names).rows.length = t.rows.length) ∧
    (∀ (h : List String) (rows : List (List String)) (names : List String),
      (∀ r ∈ rows, r.length = h.length) → (∀ c ∈ h, c ∉ names) →
      trimColumns (Table.mk (some h) rows) names = Table.mk (some h) rows) := by
  refine ⟨by decide, by decide, ?_, ?_⟩
  · intro t names
    obtain ⟨header, rows⟩ := t
    cases header with
    | none => rfl
    | some h => simp [trimColumns]
  · intro h rows names hlen hdisj
    have hrowfix : ∀ r ∈ rows,
        ((h.zip r).filter (fun p => !(decide (p.1 ∈ names)))).map Prod.snd = r := by
      intro r hr
      have hz : ∀ p ∈ h.zip r, (!(decide (p.1 ∈ names))) = true := by
        rintro ⟨a, b⟩ hp
        have hah : a ∈ h := (List.of_mem_zip hp).1
        simp [hdisj a hah]
      rw [List.filter_eq_self.2 hz]
      exact List.map_snd_zip h r (le_of_eq (hlen r hr))
    have hhd : h.filter (fun c => !(decide (c ∈ names))) = h := by
      refine List.filter_eq_self.2 ?_
      intro c hc
      simp [hdisj c hc]
    simp only [trimColumns, hhd]
    congr 1
    calc rows.map (fun r =>
          ((h.zip r).filter (fun p => !(decide (p.1 ∈ names)))).map Prod.snd)
        = rows.map id := List.map_congr_left (fun r hr => hrowfix r hr)
      _ = rows := List.map_id rows

theorem c5_trim_columns_witness :
    trimColumns (Table.mk (some ["A"]) [["x"]]) ["B"] = Table.mk (some ["A"]) [["x"]] :=
  c5_trim_columns.2.2.2 ["A"] [["x"]] ["B"] (by decide) (by decide)

/-- Claim C1 is a code bug: DeleteOriginalData.run never creates its
    declared Target file processed_data_dir/delete_original_data.done;
    it only deletes files, so whenever the sentinel is absent before
    the run it is still absent after a run that returns without
    error.  The claim that every Step leaves its Target in existence
    on success therefore fails at this Step. -/
theorem c1_delete_run_never_creates_done_target (fs : FS) (locked : Path → Bool)
    (h : FS.isFile fs doneTargetPath = false) :
    FS.isFile (deleteRun locked fs) doneTargetPath = false := by
  rw [FS.isFile, decide_eq_false_iff_not] at h ⊢
  intro hmem
  rcases List.mem_map.1 hmem with ⟨pf, hpf, heq⟩
  have hin := (deleteRun_files_mem locked fs pf).1 hpf
  exact h (List.mem_map.2 ⟨pf, hin.1, heq⟩)

theorem c1_delete_run_never_creates_done_target_witness :
    FS.isFile
      (deleteRun (fun _ => false)
        (FS.mk [["processed_data"], ["processed_data", "sub"]]
          [(["processed_data", "sub", "f_Probes.tsv"], "x")]))
      doneTargetPath = false :=
  c1_delete_run_never_creates_done_target _ _ (by decide)

/-- Claim C6: cleanup is best-effort and never raises: deleteRun is a
    total function on the filesystem state, and a file survives the
    run exactly when it was outside the walked processed-data tree or
    its deletion failed; in particular every deletable walked file is
    removed even when other files are non-deletable, and locked files
    are simply left behind. -/
theorem c6_cleanup_best_effort (fs : FS) (locked : Path → Bool) (pf : Path × String) :
    pf ∈ (deleteRun locked fs).files ↔
      pf ∈ fs.files ∧ ¬(pf.1 ∈ walkFiles fs procDataDir ∧ locked pf.1 = false) :=
  deleteRun_files_mem locked fs pf

/-- Claim C10: when the walk of processed_data_dir yields no
    directories and no files, DeleteOriginalData.run returns early
    and unchanged, so in particular the root processed-data directory
    itself is not removed. -/
theorem c10_empty_walk_early_return (fs : FS) (locked : Path → Bool)
    (hd : walkDirs fs procDataDir = []) (hf : walkFiles fs procDataDir = []) :
    deleteRun locked fs = fs ∧
      (procDataDir ∈ fs.dirs → procDataDir ∈ (deleteRun locked fs).dirs) := by
  have heq : deleteRun locked fs = fs := by
    simp [deleteRun, hd, hf]
  exact ⟨heq, fun hmem => by rw [heq]; exact hmem⟩

theorem c10_empty_walk_early_return_witness :
    deleteRun (fun _ => false) (FS.mk [["processed_data"]] []) =
        FS.mk [["processed_data"]] [] ∧
      ["processed_data"] ∈ (deleteRun (fun _ => false) (FS.mk [["processed_data"]] [])).dirs := by
  have h := c10_empty_walk_early_return (FS.mk [["processed_data"]] []) (fun _ => false)
    (by decide) (by decide)
  exact ⟨h.1, h.2 (by decide)⟩

/-- Claim C4: when no file ending in the probes suffix exists under
    the processed-data directory, TrimProbesTable.run fails with
    FileNotFoundError and creates no file at all: the file state is
    exactly the input file state. -/
theorem c4_missing_probes_error (fs : FS)
    (h : (walkFiles (mkdirs outputDirTrim fs) procDataDir).filter endsWithProbes = []) :
    (trimProbesRun fs).2 =
        some (PipeErr.fileNotFound "No Probes files found in the directory: processed_data") ∧
      (trimProbesRun fs).1.files = fs.files := by
  rw [trimProbesRun, h]
  exact ⟨rfl, rfl⟩

theorem c4_missing_probes_error_witness :
    (trimProbesRun (FS.mk [] [])).2 =
        some (PipeErr.fileNotFound "No Probes files found in the directory: processed_data") ∧
      (trimProbesRun (FS.mk [] [])).1.files = (FS.mk [] []).files :=
  c4_missing_probes_error (FS.mk [] []) (by decide)

theorem trimOneFile_dirs (fs : FS) (p : Path) (fs2 : FS)
    (h : trimOneFile fs p = some fs2) : fs2.dirs = fs.dirs := by
  cases hr : readFileFS fs p with
  | none => simp [trimOneFile, hr] at h
  | some content =>
    cases ht : readTable true (content.splitOn "\n") with
    | none => simp [trimOneFile, hr, ht] at h
    | some t =>
      simp only [trimOneFile, hr, ht, Option.some.injEq] at h
      rw [← h]
      rfl

theorem trimLoop_dirs (L : List Path) (fs : FS) : (trimLoop L fs).1.dirs = fs.dirs := by
  induction L generalizing fs with
  | nil => rfl
  | cons p L ih =>
    show (match trimOneFile fs p with
      | none => (fs, some PipeErr.emptyData)
      | some fs2 => trimLoop L fs2).1.dirs = fs.dirs
    cases h : trimOneFile fs p with
    | none => rfl
    | some fs2 => rw [ih fs2, trimOneFile_dirs fs p fs2 h]

/-- Claim C8: TrimProbesTable.run creates its output directory before
    checking for probes input files, so the output directory exists
    in the resulting state on every path, including the
    missing-input failure path: the error exit is not atomic with
    respect to filesystem state. -/
theorem c8_output_dir_created_before_check (fs : FS) :
    outputDirTrim ∈ (trimProbesRun fs).1.dirs ∧
      ((walkFiles (mkdirs outputDirTrim fs) procDataDir).filter endsWithProbes = [] →
        (trimProbesRun fs).2 =
          some (PipeErr.fileNotFound "No Probes files found in the directory: processed_data")) := by
  constructor
  · rw [trimProbesRun]
    cases he : ((walkFiles (mkdirs outputDirTrim fs) procDataDir).filter endsWithProbes).isEmpty with
    | true =>
      rw [if_pos rfl]
      exact mem_mkdirs_self outputDirTrim fs (by decide)
    | false =>
      rw [if_neg Bool.false_ne_true, trimLoop_dirs]
      exact mem_mkdirs_self outputDirTrim fs (by decide)
  · intro h
    rw [trimProbesRun, h]
    rfl

theorem c8_output_dir_created_before_check_witness :
    outputDirTrim ∈ (trimProbesRun (FS.mk [] [])).1.dirs ∧
      (trimProbesRun (FS.mk [] [])).2 =
        some (PipeErr.fileNotFound "No Probes files found in the directory: processed_data") :=
  ⟨(c8_output_dir_created_before_check (FS.mk [] [])).1,
    (c8_output_dir_created_before_check (FS.mk [] [])).2 (by decide)⟩

end LuigiPip
